import Mathlib

/-!
# Verification of the timed role-waiting scheduler

Shallow embedding of `src/cogs/waiting.py` (class `TimedRoleWaiting`) and of
the persistent record `src/models/waiting.py` (`RoleWaiting`).

Modelling conventions:
* Platform ids (guild, channel, role, user), dates and message timestamps are
  natural numbers; `last_triggered` is `Option Nat` (`none` = never).
* External platform calls are modelled by boolean oracles (does the guild /
  channel / role resolve, does a permission change or a role grant succeed);
  a successful call is recorded as a `PlatformAction`, a failed call has no
  platform effect (the Python code swallows the raised exception).
* The arrival handler `on_message` is embedded as a sequential step function
  over an explicit state (record, per-channel message queue, the set of
  members currently holding the role, and logs of the emitted side effects).
-/

/-- The persistent configuration record, mirroring the Tortoise model
`RoleWaiting` in `src/models/waiting.py`. -/
structure RoleWaiting where
  id : Nat
  guild_id : Nat
  channel_id : Nat
  role_id : Nat
  trigger_time : String
  max_users : Nat
  given_users : List Nat
  is_active : Bool
  created_at : Nat
  last_triggered : Option Nat
  ping_role_id : Option Nat
  ping_type : String
deriving DecidableEq, Repr

/-- Successful externally visible platform effects, in emission order. -/
inductive PlatformAction where
  | save (w : RoleWaiting)
  | openChannel (channelId : Nat)
  | lockChannel (channelId : Nat)
  | announce (channelId : Nat)
  | grantRole (userId roleId : Nat)
  | revokeRole (userId roleId : Nat)
  | sendDM (userId : Nat)
deriving DecidableEq, Repr

/-! ## The stable ascending sort used at closure

`self._message_queue[channel.id].sort(key=lambda x: x[1])` is Python's
`list.sort`: a stable sort, ascending on the timestamp component.  A stable
sort is extensionally unique, so we embed it as a stable insertion sort:
an element being inserted walks past exactly the elements whose timestamp is
strictly smaller, so on ties the earlier-buffered element stays first. -/

/-- Insert `x` into `l`, passing every element with strictly smaller
timestamp, so that on equal timestamps `x` (the earlier-buffered element,
see `sortByTs`) comes first. -/
def insertByTs (x : Nat × Nat) : List (Nat × Nat) → List (Nat × Nat)
  | [] => [x]
  | y :: ys => if y.2 < x.2 then y :: insertByTs x ys else x :: y :: ys

/-- Stable ascending sort on the timestamp component (Python `list.sort`
with `key=lambda x: x[1]`). -/
def sortByTs : List (Nat × Nat) → List (Nat × Nat)
  | [] => []
  | x :: xs => insertByTs x (sortByTs xs)

theorem insertByTs_perm (x : Nat × Nat) (l : List (Nat × Nat)) :
    (insertByTs x l).Perm (x :: l) := by
  induction l with
  | nil => simp [insertByTs]
  | cons y ys ih =>
    simp only [insertByTs]
    split
    · exact ((ih.cons y).trans (List.Perm.swap x y ys))
    · exact List.Perm.refl _

theorem sortByTs_perm (l : List (Nat × Nat)) : (sortByTs l).Perm l := by
  induction l with
  | nil => simp [sortByTs]
  | cons x xs ih =>
    exact (insertByTs_perm x (sortByTs xs)).trans (ih.cons x)

theorem length_sortByTs (l : List (Nat × Nat)) : (sortByTs l).length = l.length :=
  (sortByTs_perm l).length_eq

theorem pairwise_insertByTs (x : Nat × Nat) (l : List (Nat × Nat))
    (h : l.Pairwise (fun a b => a.2 ≤ b.2)) :
    (insertByTs x l).Pairwise (fun a b => a.2 ≤ b.2) := by
  induction l with
  | nil => simp [insertByTs]
  | cons y ys ih =>
    simp only [insertByTs]
    rw [List.pairwise_cons] at h
    obtain ⟨hy, hys⟩ := h
    split
    · refine List.pairwise_cons.mpr ⟨?_, ih hys⟩
      intro z hz
      have hz' := List.mem_cons.mp ((insertByTs_perm x ys).mem_iff.mp hz)
      rcases hz' with rfl | hz'
      · omega
      · exact hy z hz'
    · refine List.pairwise_cons.mpr ⟨?_, List.pairwise_cons.mpr ⟨hy, hys⟩⟩
      intro z hz
      rcases List.mem_cons.mp hz with rfl | hz₂
      · omega
      · have := hy z hz₂
        omega

theorem pairwise_sortByTs (l : List (Nat × Nat)) :
    (sortByTs l).Pairwise (fun a b => a.2 ≤ b.2) := by
  induction l with
  | nil => simp [sortByTs]
  | cons x xs ih => exact pairwise_insertByTs x (sortByTs xs) ih

/-- Stability of the embedded sort: for every timestamp value, the entries
carrying that timestamp appear in the output in their original buffer order. -/
theorem filter_insertByTs (x : Nat × Nat) (l : List (Nat × Nat)) (t : Nat) :
    (insertByTs x l).filter (fun p => p.2 == t) =
      if x.2 = t then x :: l.filter (fun p => p.2 == t)
      else l.filter (fun p => p.2 == t) := by
  induction l with
  | nil => simp [insertByTs, List.filter]; split <;> simp_all
  | cons y ys ih =>
    simp only [insertByTs]
    by_cases hy : y.2 < x.2
    · simp only [if_pos hy, List.filter_cons, ih]
      by_cases hx : x.2 = t
      · have : ¬ (y.2 == t) = true := by simp; omega
        simp [hx, this]
      · simp [hx]
    · simp only [if_neg hy, List.filter_cons]
      by_cases hx : x.2 = t <;> simp [hx]

theorem sortByTs_stable (l : List (Nat × Nat)) (t : Nat) :
    (sortByTs l).filter (fun p => p.2 == t) = l.filter (fun p => p.2 == t) := by
  induction l with
  | nil => simp [sortByTs]
  | cons x xs ih =>
    simp only [sortByTs, filter_insertByTs, List.filter_cons]
    by_cases hx : x.2 = t
    · simp [hx, ih]
    · simp [hx, ih]

/-! ## The closure split (`on_message`, lines 896-902)

After the in-place stable sort, the code takes
`winners = [author for author, _ in queue[:max_users]]` and
`losers = [author for author in all_participants if author not in winners]`
where `all_participants` is the whole (sorted) queue. -/

/-- The winners of a closure: authors of the first `m` entries of the
stable-sorted buffer. -/
def closureWinners (q : List (Nat × Nat)) (m : Nat) : List Nat :=
  ((sortByTs q).take m).map Prod.fst

/-- The losers of a closure, exactly as the code computes them: every
buffered author (in sorted order) that does not occur among the winners. -/
def closureLosers (q : List (Nat × Nat)) (m : Nat) : List Nat :=
  ((sortByTs q).map Prod.fst).filter (fun a => !((closureWinners q m).contains a))

/-- Modelled from the spec: the loser list as the spec's words describe it
("the remaining buffered entries as losers"), i.e. the authors of the sorted
buffer beyond the first `maxUsers` entries.  Kept separate from
`closureLosers` (which follows the code) for comparison. -/
def losersAsSpecified (q : List (Nat × Nat)) (m : Nat) : List Nat :=
  ((sortByTs q).drop m).map Prod.fst

/-! ## The arrival handler state (`on_message`, lines 836-943) -/

/-- Environment of the arrival handler: whether `guild.get_role(role_id)`
resolves. -/
structure MsgEnv where
  roleExists : Bool
deriving DecidableEq, Repr

/-- Volatile handler state for one configuration record and its channel:
the record itself, `self._message_queue[channel.id]`, the set of members
currently holding the role, plus logs of emitted effects (channel-lock
permission calls, `add_roles` attempts in call order, direct messages, and
the announced `(winners, losers)` pairs). -/
structure WaitState where
  w : RoleWaiting
  queue : List (Nat × Nat)
  roles : List Nat
  lockAttempts : Nat
  grantAttempts : List Nat
  dms : List Nat
  announcements : List (List Nat × List Nat)
deriving DecidableEq, Repr

/-- The closure critical section (`on_message`, lines 885-943): lock the
channel, stable-sort the buffer, split winners/losers, attempt a grant for
every winner in order — a winner's id is appended to `given_users` (and the
member gains the role) exactly when its `add_roles` call succeeds, a failure
is swallowed — persist, announce, clear the queue.  `g` is the grant oracle:
`g u = true` iff `add_roles` succeeds for user `u`. -/
def runClosure (g : Nat → Bool) (st : WaitState) : WaitState :=
  let winners := closureWinners st.queue st.w.max_users
  let losers := closureLosers st.queue st.w.max_users
  let granted := winners.filter g
  { w := { st.w with given_users := st.w.given_users ++ granted }
    queue := []
    roles := st.roles ++ granted
    lockAttempts := st.lockAttempts + 1
    grantAttempts := st.grantAttempts ++ winners
    dms := st.dms
    announcements := st.announcements ++ [(winners, losers)] }

/-- One `on_message` invocation for a single configuration record, for a
non-bot message by author `a` with creation timestamp `ts` in the record's
channel.  Mirrors the guard order of the code: the `is_active` database
filter, the `last_triggered == today` check, the role lookup, the
already-has-role DM path, the `given_users` idempotence guard, then the
buffer append and the threshold check. -/
def processMessage (g : Nat → Bool) (env : MsgEnv) (today : Nat)
    (st : WaitState) (a ts : Nat) : WaitState :=
  if st.w.is_active = false then st
  else if st.w.last_triggered ≠ some today then st
  else if env.roleExists = false then st
  else if a ∈ st.roles then { st with dms := st.dms ++ [a] }
  else if a ∈ st.w.given_users then st
  else if st.w.max_users ≤ (st.queue ++ [(a, ts)]).length then
    runClosure g { st with queue := st.queue ++ [(a, ts)] }
  else { st with queue := st.queue ++ [(a, ts)] }

/-- Process a sequence of arrival events in receipt order. -/
def processMessages (g : Nat → Bool) (env : MsgEnv) (today : Nat) :
    WaitState → List (Nat × Nat) → WaitState
  | st, [] => st
  | st, e :: es => processMessages g env today (processMessage g env today st e.1 e.2) es

/-! ## Activation Engine (`activate_waiting`, lines 181-245) -/

/-- Environment of an activation attempt: which platform lookups resolve and
whether the channel-open permission call succeeds. -/
structure ActEnv where
  guildExists : Bool
  channelExists : Bool
  roleExists : Bool
  openPermSucceeds : Bool
deriving DecidableEq, Repr

/-- `activate_waiting`: a failed guild/channel/role lookup returns before any
mutation; otherwise the record is reset (`given_users = []`,
`last_triggered = today`) and saved, the per-channel queue is re-created
empty, and only then is the channel-open permission call made — if it fails
the function returns (the announcement is skipped) with the saved reset left
in place. -/
def activate_waiting (env : ActEnv) (w : RoleWaiting) (today : Nat) :
    RoleWaiting × List PlatformAction :=
  if env.guildExists = false then (w, [])
  else if env.channelExists = false then (w, [])
  else if env.roleExists = false then (w, [])
  else
    let w' := { w with given_users := ([] : List Nat), last_triggered := some today }
    if env.openPermSucceeds = false then (w', [PlatformAction.save w'])
    else (w', [PlatformAction.save w', PlatformAction.openChannel w.channel_id,
               PlatformAction.announce w.channel_id])

/-- `wait_test` (the manual/administrative trigger, lines 822-834): fetch the
record; if found, call `activate_waiting` directly — no
`last_triggered ≠ today` guard is consulted. -/
def wait_test (env : ActEnv) (found : Option RoleWaiting) (today : Nat) :
    Option (RoleWaiting × List PlatformAction) :=
  match found with
  | none => none
  | some w => some (activate_waiting env w today)

/-! ## Reset Engine (`daily_reset`, lines 101-155), per record -/

/-- Environment of a reset pass over one record. `memberHasRole u` models
`guild.get_member(u)` resolving with the role currently among the member's
roles. -/
structure ResetEnv where
  guildExists : Bool
  channelExists : Bool
  roleExists : Bool
  memberHasRole : Nat → Bool

/-- The body of the `daily_reset` loop for one record: if the guild does not
resolve, skip the record entirely; otherwise best-effort revoke the role from
every recorded user that still holds it (only when the role resolves and
`given_users` is non-empty), then unconditionally set `given_users = []` and
`last_triggered = None`, save, and re-lock the channel if it resolves. -/
def resetRecord (env : ResetEnv) (w : RoleWaiting) :
    RoleWaiting × List PlatformAction :=
  if env.guildExists = false then (w, [])
  else
    let revokes :=
      if env.roleExists && !w.given_users.isEmpty then
        (w.given_users.filter env.memberHasRole).map
          (fun u => PlatformAction.revokeRole u w.role_id)
      else []
    let w' := { w with given_users := ([] : List Nat), last_triggered := none }
    let locks := if env.channelExists then [PlatformAction.lockChannel w.channel_id] else []
    (w', revokes ++ [PlatformAction.save w'] ++ locks)

/-! ## Setup wizard (`wait_setup`, lines 254-474) -/

/-- Parsed ping-step input: `here` / `everyone` / `none` / a role mention /
anything else (the invalid path). -/
inductive PingInput where
  | here
  | everyone
  | noping
  | withRole (id : Nat)
  | invalid
deriving DecidableEq, Repr

/-- All distinguishable outcomes of the setup dialogue that the embedding
tracks (timeout paths collapse onto the corresponding error returns). -/
inductive SetupOutcome where
  | freeLimitReached
  | invalidChannel
  | invalidTime
  | invalidRole
  | roleTooHighBot
  | roleTooHighAuthor
  | invalidLimit
  | invalidPing
  | lockFailed
  | created (w : RoleWaiting)
deriving DecidableEq, Repr

/-- Inputs to one run of the setup dialogue.  The raw strings typed by the
user are represented by their Python parse results: `timeInput` is the
outcome of `map(int, content.split(":"))` unpacked into two integers
(`none` when unpacking or `int()` raised), `limitInput` the outcome of
`int(content)`. -/
structure SetupInput where
  isPremium : Bool
  guildRecords : List RoleWaiting
  guildId : Nat
  channelInput : Option Nat
  timeInput : Option (Int × Int)
  roleInput : Option Nat
  roleBelowBotTop : Bool
  roleBelowAuthorTop : Bool
  limitInput : Option Int
  pingInput : PingInput
  lockSucceeds : Bool

/-- Zero-padded `HH:MM` rendering (`f"{hour:02d}:{minute:02d}"`). -/
def pad2 (n : Nat) : String :=
  if n < 10 then "0" ++ toString n else toString n

/-- `ping_type` column value for a parsed ping input. -/
def pingTypeStr : PingInput → String
  | PingInput.here => "here"
  | PingInput.everyone => "everyone"
  | PingInput.noping => "none"
  | PingInput.withRole _ => "role"
  | PingInput.invalid => ""

/-- `ping_role_id` column value for a parsed ping input. -/
def pingRoleId : PingInput → Option Nat
  | PingInput.withRole i => some i
  | _ => none

/-- The record `RoleWaiting.create` builds at the end of a successful setup
dialogue. -/
def mkSetupRecord (inp : SetupInput) (newId ch r : Nat) (h m lim : Int) : RoleWaiting :=
  { id := newId
    guild_id := inp.guildId
    channel_id := ch
    role_id := r
    trigger_time := pad2 h.toNat ++ ":" ++ pad2 m.toNat
    max_users := lim.toNat
    given_users := []
    is_active := true
    created_at := 0
    last_triggered := none
    ping_role_id := pingRoleId inp.pingInput
    ping_type := pingTypeStr inp.pingInput }

/-- `wait_setup`: the premium gate (`RoleWaiting.filter(guild_id=...).count()`
over *all* of the guild's records, compared with 2 for non-premium guilds),
then the channel, time, role, role-hierarchy, user-limit and ping validation
steps in source order, then the initial channel lock, and only then
`RoleWaiting.create`.  Returns the outcome together with the guild's record
list after the run. -/
def wait_setup (inp : SetupInput) (newId : Nat) : SetupOutcome × List RoleWaiting :=
  if inp.isPremium = false ∧ 2 ≤ inp.guildRecords.length then
    (SetupOutcome.freeLimitReached, inp.guildRecords)
  else
    match inp.channelInput with
    | none => (SetupOutcome.invalidChannel, inp.guildRecords)
    | some ch =>
      match inp.timeInput with
      | none => (SetupOutcome.invalidTime, inp.guildRecords)
      | some (h, m) =>
        if 0 ≤ h ∧ h ≤ 23 ∧ 0 ≤ m ∧ m ≤ 59 then
          match inp.roleInput with
          | none => (SetupOutcome.invalidRole, inp.guildRecords)
          | some r =>
            if inp.roleBelowBotTop = false then (SetupOutcome.roleTooHighBot, inp.guildRecords)
            else if inp.roleBelowAuthorTop = false then
              (SetupOutcome.roleTooHighAuthor, inp.guildRecords)
            else
              match inp.limitInput with
              | none => (SetupOutcome.invalidLimit, inp.guildRecords)
              | some lim =>
                if 1 ≤ lim ∧ lim ≤ 1000 then
                  if inp.pingInput = PingInput.invalid then
                    (SetupOutcome.invalidPing, inp.guildRecords)
                  else if inp.lockSucceeds = false then
                    (SetupOutcome.lockFailed, inp.guildRecords)
                  else
                    (SetupOutcome.created (mkSetupRecord inp newId ch r h m lim),
                     inp.guildRecords ++ [mkSetupRecord inp newId ch r h m lim])
                else (SetupOutcome.invalidLimit, inp.guildRecords)
        else (SetupOutcome.invalidTime, inp.guildRecords)

/-! ## Concrete records shared by witnesses and counterexamples -/

/-- A concrete configuration record (a gate at 13:57 for 2 users, one grant
already recorded, never triggered). -/
def sampleRecord : RoleWaiting :=
  { id := 1, guild_id := 10, channel_id := 20, role_id := 30,
    trigger_time := "13:57", max_users := 2, given_users := [7],
    is_active := true, created_at := 0, last_triggered := none,
    ping_role_id := none, ping_type := "here" }

/-- `sampleRecord` with `given_users` already empty but `last_triggered`
still set (as after an activation that saw no closure). -/
def clearedRecord : RoleWaiting :=
  { sampleRecord with given_users := [], last_triggered := some 5 }

/-- `sampleRecord` fully reset: empty `given_users`, no `last_triggered`. -/
def emptyRecord : RoleWaiting :=
  { sampleRecord with given_users := [], last_triggered := none }

/-- `sampleRecord` already triggered on day 42. -/
def triggeredRecord : RoleWaiting :=
  { sampleRecord with last_triggered := some 42 }

/-- A reset environment where every lookup resolves and no member still
holds the role. -/
def resetEnvAll : ResetEnv := ⟨true, true, true, fun _ => false⟩

/-! ## C2 — activation vs. permission failure -/

/-- **C2, counterexample.**  The claim says a failed channel-open permission
call leaves `lastTriggered`/`givenUsers` unchanged.  In the code the record
is reset and saved *before* the permission call: with every lookup resolving
and the permission call failing, activating `sampleRecord` (never triggered,
one recorded grant) on day 42 yields a persisted record with
`last_triggered = 42` and `given_users = []`. -/
theorem activation_mutates_despite_perm_failure :
    (activate_waiting ⟨true, true, true, false⟩ sampleRecord 42).1.last_triggered = some 42 ∧
    (activate_waiting ⟨true, true, true, false⟩ sampleRecord 42).1.given_users = [] ∧
    sampleRecord.last_triggered = none ∧
    sampleRecord.given_users = [7] ∧
    PlatformAction.save ((activate_waiting ⟨true, true, true, false⟩ sampleRecord 42).1)
      ∈ (activate_waiting ⟨true, true, true, false⟩ sampleRecord 42).2 := by
  decide

/-- **C2, amended.**  Activation aborts with the record untouched only when
the guild/channel/role lookup fails.  When every lookup resolves and the
channel-open permission call fails, the activation still resets and persists
the record (`givenUsers = ∅`, `lastTriggered = today`) — only the
announcement is skipped — so the reset is not rolled back and a later tick
the same minute will not retry. -/
theorem activate_waiting_partial_failure (env : ActEnv) (w : RoleWaiting) (today : Nat)
    (hfail : env.openPermSucceeds = false) :
    (env.guildExists = false ∨ env.channelExists = false ∨ env.roleExists = false →
      activate_waiting env w today = (w, [])) ∧
    (env.guildExists = true → env.channelExists = true → env.roleExists = true →
      (activate_waiting env w today).1.given_users = [] ∧
      (activate_waiting env w today).1.last_triggered = some today ∧
      (activate_waiting env w today).2 =
        [PlatformAction.save ((activate_waiting env w today).1)] ∧
      (∀ c, PlatformAction.announce c ∉ (activate_waiting env w today).2)) := by
  rcases env with ⟨g, c, r, o⟩
  simp only at hfail
  subst hfail
  constructor
  · rintro (rfl | rfl | rfl) <;> simp [activate_waiting]
  · rintro rfl rfl rfl
    refine ⟨rfl, rfl, rfl, ?_⟩
    intro ch hmem
    simp [activate_waiting] at hmem

/-- Witness for `activate_waiting_partial_failure` at a concrete input. -/
theorem activate_waiting_partial_failure_witness :
    (activate_waiting ⟨true, true, true, false⟩ sampleRecord 42).1.given_users = [] ∧
    (activate_waiting ⟨true, true, true, false⟩ sampleRecord 42).1.last_triggered = some 42 := by
  have h := activate_waiting_partial_failure ⟨true, true, true, false⟩ sampleRecord 42 rfl
  exact ⟨(h.2 rfl rfl rfl).1, (h.2 rfl rfl rfl).2.1⟩

/-! ## C5 — reset idempotence -/

/-- **C5, counterexample.**  The claim says reset on an active record with
empty `givenUsers` changes no field.  The code clears `lastTriggered`
unconditionally: resetting `clearedRecord` (empty `givenUsers`,
`lastTriggered = 5`) — once or twice in succession — yields a record that
differs from the original. -/
theorem daily_reset_changes_already_reset_record :
    clearedRecord.given_users = [] ∧
    (resetRecord resetEnvAll clearedRecord).1 ≠ clearedRecord ∧
    (resetRecord resetEnvAll ((resetRecord resetEnvAll clearedRecord).1)).1 ≠ clearedRecord := by
  decide

/-- **C5, amended.**  Reset unconditionally sets `givenUsers = ∅` and
`lastTriggered = none`.  On a record whose `givenUsers` is empty *and whose
`lastTriggered` is already cleared* it changes no field and performs no
revocation (its platform effects are only the re-save of identical contents
and the idempotent channel re-lock); and in general the second of two
successive invocations never changes any field. -/
theorem daily_reset_idempotent (env : ResetEnv) (w : RoleWaiting)
    (hg : w.given_users = []) (hl : w.last_triggered = none) :
    (resetRecord env w).1 = w ∧
    (∀ u r, PlatformAction.revokeRole u r ∉ (resetRecord env w).2) ∧
    (∀ env' : ResetEnv, ∀ w' : RoleWaiting,
      (resetRecord env' ((resetRecord env' w').1)).1 = (resetRecord env' w').1) := by
  refine ⟨?_, ?_, ?_⟩
  · unfold resetRecord
    by_cases hge : env.guildExists = false
    · simp [hge]
    · simp only [Bool.not_eq_false] at hge
      simp only [hge]
      cases w
      simp_all
  · unfold resetRecord
    by_cases hge : env.guildExists = false
    · simp [hge]
    · simp only [Bool.not_eq_false] at hge
      intro u r
      simp [hge, hg]
  · intro env' w'
    unfold resetRecord
    by_cases hge : env'.guildExists = false
    · simp [hge]
    · simp only [Bool.not_eq_false] at hge
      simp [hge]

/-- Witness for `daily_reset_idempotent` at a concrete input. -/
theorem daily_reset_idempotent_witness :
    (resetRecord resetEnvAll emptyRecord).1 = emptyRecord := by
  exact (daily_reset_idempotent resetEnvAll emptyRecord rfl rfl).1

/-! ## C9 — the manual trigger -/

/-- **C9.**  The manual trigger (`wait_test`) calls `activate_waiting`
directly, consulting no `lastTriggered ≠ today` guard: on a record already
triggered today (with every lookup resolving and the permission call
succeeding) it resets `givenUsers` to empty and sets `lastTriggered` to
today, persists that *before* the channel is re-opened, and emits no
role revocation whatsoever — prior grants are dropped from the record only,
the platform-side role state of every participant is untouched. -/
theorem wait_test_bypasses_guard (env : ActEnv) (w : RoleWaiting) (today : Nat)
    (hg : env.guildExists = true) (hc : env.channelExists = true)
    (hr : env.roleExists = true) (ho : env.openPermSucceeds = true)
    (halready : w.last_triggered = some today) :
    wait_test env (some w) today = some (activate_waiting env w today) ∧
    (activate_waiting env w today).1.given_users = [] ∧
    (activate_waiting env w today).1.last_triggered = some today ∧
    (∀ u r, PlatformAction.revokeRole u r ∉ (activate_waiting env w today).2) ∧
    (activate_waiting env w today).2 =
      [PlatformAction.save ((activate_waiting env w today).1),
       PlatformAction.openChannel w.channel_id,
       PlatformAction.announce w.channel_id] := by
  rcases env with ⟨g, c, r, o⟩
  simp only at hg hc hr ho
  subst hg; subst hc; subst hr; subst ho
  refine ⟨rfl, rfl, rfl, ?_, rfl⟩
  intro u rr hmem
  simp [activate_waiting] at hmem

/-- Witness for `wait_test_bypasses_guard` at a concrete input: a record
already triggered on day 42 is wiped and restarted. -/
theorem wait_test_bypasses_guard_witness :
    (activate_waiting ⟨true, true, true, true⟩ triggeredRecord 42).1.given_users = [] ∧
    (activate_waiting ⟨true, true, true, true⟩ triggeredRecord 42).1.last_triggered = some 42 := by
  have h := wait_test_bypasses_guard ⟨true, true, true, true⟩ triggeredRecord 42 rfl rfl rfl rfl rfl
  exact ⟨h.2.1, h.2.2.1⟩

/-! ## C4 — the closure split as a pure function -/

/-- **C4, counterexample.**  The claim describes the losers as "the rest" of
the sorted buffer beyond the first `maxUsers` entries.  The code instead
filters the whole sorted buffer by non-membership in the winner list, so a
buffered entry whose participant also appears among the winners is dropped:
on the buffer `[(1,1),(2,2),(1,3)]` with `maxUsers = 2` the code announces
no losers while the remaining slice still contains participant `1`. -/
theorem closure_losers_not_rest_of_sorted :
    closureLosers [(1, 1), (2, 2), (1, 3)] 2 = [] ∧
    losersAsSpecified [(1, 1), (2, 2), (1, 3)] 2 = [1] ∧
    closureLosers [(1, 1), (2, 2), (1, 3)] 2 ≠
      losersAsSpecified [(1, 1), (2, 2), (1, 3)] 2 := by
  decide

/-- **C4, amended.**  The winner/loser split is a deterministic pure function
of the buffered `(participant, timestamp)` list and `maxUsers`: the buffer is
stably sorted ascending by timestamp (a permutation, pairwise-ascending, and
for every timestamp value the tied entries keep their buffer insertion
order), the winners are the participants of the first `maxUsers` sorted
entries, and the losers are the participants of the sorted buffer that do
not occur among the winners (not simply "the rest").  Two closures over
identical buffer contents and identical `maxUsers` announce identical
winners and identical losers, whatever the rest of the state or the grant
oracle. -/
theorem closure_split_pure_stable_sort_slice (q : List (Nat × Nat)) (m : Nat) :
    (sortByTs q).Perm q ∧
    (sortByTs q).Pairwise (fun a b => a.2 ≤ b.2) ∧
    (∀ t, (sortByTs q).filter (fun p => p.2 == t) = q.filter (fun p => p.2 == t)) ∧
    closureWinners q m = ((sortByTs q).take m).map Prod.fst ∧
    (∀ a, a ∈ closureLosers q m ↔ a ∈ (sortByTs q).map Prod.fst ∧ a ∉ closureWinners q m) ∧
    (∀ st st' : WaitState, st.queue = q → st'.queue = q →
      st.w.max_users = m → st'.w.max_users = m →
      ∀ g g' : Nat → Bool,
        (runClosure g st).announcements.getLast? = some (closureWinners q m, closureLosers q m) ∧
        (runClosure g' st').announcements.getLast? = some (closureWinners q m, closureLosers q m)) := by
  refine ⟨sortByTs_perm q, pairwise_sortByTs q, sortByTs_stable q, rfl, ?_, ?_⟩
  · intro a
    simp [closureLosers, List.mem_filter]
  · intro st st' hq hq' hm hm' g g'
    constructor
    · simp [runClosure, hq, hm, List.getLast?_concat]
    · simp [runClosure, hq', hm', List.getLast?_concat]

/-! ## Setup characterization (shared by the setup claims) -/

theorem wait_setup_spec (inp : SetupInput) (newId : Nat) :
    (∃ w, (wait_setup inp newId).1 = SetupOutcome.created w ∧
          (wait_setup inp newId).2 = inp.guildRecords ++ [w] ∧
          (∃ hh mm, inp.timeInput = some (hh, mm) ∧
            0 ≤ hh ∧ hh ≤ 23 ∧ 0 ≤ mm ∧ mm ≤ 59) ∧
          (∃ l, inp.limitInput = some l ∧ 1 ≤ l ∧ l ≤ 1000)) ∨
    ((∀ w, (wait_setup inp newId).1 ≠ SetupOutcome.created w) ∧
     (wait_setup inp newId).2 = inp.guildRecords) := by
  unfold wait_setup
  repeat' split
  all_goals
    first
      | (right; exact ⟨fun w h => by simp at h, rfl⟩)
      | (left
         exact ⟨_, rfl, rfl, ⟨_, _, by assumption, by omega, by omega, by omega, by omega⟩,
           ⟨_, by assumption, by omega, by omega⟩⟩)

/-- `freeLimitReached` can only come from the premium gate at the top of the
dialogue. -/
theorem free_limit_only_from_gate (inp : SetupInput) (newId : Nat)
    (h : (wait_setup inp newId).1 = SetupOutcome.freeLimitReached) :
    inp.isPremium = false ∧ 2 ≤ inp.guildRecords.length := by
  unfold wait_setup at h
  repeat' split at h
  all_goals simp_all

/-! ## C8 — setup validation -/

/-- **C8.**  A configuration record is created only when the entered trigger
time parses as a pair `(hour, minute)` with `0 ≤ hour ≤ 23` and
`0 ≤ minute ≤ 59` and the entered user limit parses as an integer with
`1 ≤ limit ≤ 1000`; whenever either input violates its bounds the run
creates nothing — the guild's stored record list is exactly what it was. -/
theorem wait_setup_validation (inp : SetupInput) (newId : Nat) :
    (∀ w, (wait_setup inp newId).1 = SetupOutcome.created w →
      (∃ hh mm, inp.timeInput = some (hh, mm) ∧
        0 ≤ hh ∧ hh ≤ 23 ∧ 0 ≤ mm ∧ mm ≤ 59) ∧
      (∃ l, inp.limitInput = some l ∧ 1 ≤ l ∧ l ≤ 1000)) ∧
    (((¬ ∃ hh mm, inp.timeInput = some (hh, mm) ∧
        0 ≤ hh ∧ hh ≤ 23 ∧ 0 ≤ mm ∧ mm ≤ 59) ∨
      (¬ ∃ l, inp.limitInput = some l ∧ 1 ≤ l ∧ l ≤ 1000)) →
      (∀ w, (wait_setup inp newId).1 ≠ SetupOutcome.created w) ∧
      (wait_setup inp newId).2 = inp.guildRecords) := by
  rcases wait_setup_spec inp newId with ⟨w, hw, hst, hts, hl⟩ | ⟨hnc, hst⟩
  · constructor
    · intro w' _
      exact ⟨hts, hl⟩
    · rintro (hbad | hbad)
      · exact absurd hts hbad
      · exact absurd hl hbad
  · constructor
    · intro w' hw'
      exact absurd hw' (hnc w')
    · intro _
      exact ⟨hnc, hst⟩

/-! ## C10 — the premium gate -/

/-- **C10.**  For a non-premium guild that already has at least two waiting
records (counted over all its records, active or not), setup stops at the
free-limit error and the stored record list is unchanged; for a premium
guild the outcome is never the free-limit error, whatever the record
count. -/
theorem wait_setup_premium_gate (inp : SetupInput) (newId : Nat) :
    (inp.isPremium = false → 2 ≤ inp.guildRecords.length →
      (wait_setup inp newId).1 = SetupOutcome.freeLimitReached ∧
      (wait_setup inp newId).2 = inp.guildRecords) ∧
    (inp.isPremium = true → (wait_setup inp newId).1 ≠ SetupOutcome.freeLimitReached) := by
  constructor
  · intro h1 h2
    rw [wait_setup, if_pos ⟨h1, h2⟩]
    exact ⟨rfl, rfl⟩
  · intro h1 hbad
    have := (free_limit_only_from_gate inp newId hbad).1
    rw [h1] at this
    cases this

/-! ## Shared lemmas about the arrival handler -/

/-- Processing a concatenation of event lists is processing them in order. -/
theorem processMessages_append (g : Nat → Bool) (env : MsgEnv) (today : Nat)
    (l₁ l₂ : List (Nat × Nat)) (st : WaitState) :
    processMessages g env today st (l₁ ++ l₂) =
      processMessages g env today (processMessages g env today st l₁) l₂ := by
  induction l₁ generalizing st with
  | nil => simp [processMessages]
  | cons e es ih =>
    simp only [List.cons_append, processMessages]
    exact ih _

/-- A buffering step: when every guard passes and the buffer stays below the
limit, one arrival is appended to the queue and nothing else changes. -/
theorem processMessage_buffers (g : Nat → Bool) (env : MsgEnv) (today : Nat)
    (st : WaitState) (a ts : Nat)
    (hact : st.w.is_active = true) (htrig : st.w.last_triggered = some today)
    (hrole : env.roleExists = true) (hnr : a ∉ st.roles) (hng : a ∉ st.w.given_users)
    (hlt : st.queue.length + 1 < st.w.max_users) :
    processMessage g env today st a ts = { st with queue := st.queue ++ [(a, ts)] } := by
  unfold processMessage
  rw [if_neg (by simp [hact]), if_neg (by simp [htrig]), if_neg (by simp [hrole]),
      if_neg hnr, if_neg hng, if_neg (by simp; omega)]

/-- A burst that stays strictly below the limit only accumulates into the
queue: no lock, no grants, no announcement, no record change. -/
theorem processMessages_buffer (g : Nat → Bool) (env : MsgEnv) (today : Nat) :
    ∀ (events : List (Nat × Nat)) (st : WaitState),
    st.w.is_active = true → st.w.last_triggered = some today → env.roleExists = true →
    (∀ p ∈ events, p.1 ∉ st.roles) → (∀ p ∈ events, p.1 ∉ st.w.given_users) →
    st.queue.length + events.length < st.w.max_users →
    processMessages g env today st events = { st with queue := st.queue ++ events }
  | [], st, _, _, _, _, _, _ => by simp [processMessages]
  | e :: es, st, hact, htrig, hrole, hroles, hgiven, hlen => by
    have hstep := processMessage_buffers g env today st e.1 e.2 hact htrig hrole
      (hroles e (List.mem_cons_self e es)) (hgiven e (List.mem_cons_self e es))
      (by simp at hlen ⊢; omega)
    have hrest := processMessages_buffer g env today es { st with queue := st.queue ++ [e] }
      hact htrig hrole
      (fun p hp => hroles p (List.mem_cons_of_mem e hp))
      (fun p hp => hgiven p (List.mem_cons_of_mem e hp))
      (by simp at hlen ⊢; omega)
    simp only [processMessages, hstep, hrest, List.append_assoc, List.singleton_append]

/-- A closing step: when every guard passes and the appended arrival takes
the buffer to the limit, the step runs the closure on the extended queue. -/
theorem processMessage_closes (g : Nat → Bool) (env : MsgEnv) (today : Nat)
    (st : WaitState) (a ts : Nat)
    (hact : st.w.is_active = true) (htrig : st.w.last_triggered = some today)
    (hrole : env.roleExists = true) (hnr : a ∉ st.roles) (hng : a ∉ st.w.given_users)
    (hfull : st.w.max_users ≤ (st.queue ++ [(a, ts)]).length) :
    processMessage g env today st a ts =
      runClosure g { st with queue := st.queue ++ [(a, ts)] } := by
  unfold processMessage
  rw [if_neg (by simp [hact]), if_neg (by simp [htrig]), if_neg (by simp [hrole]),
      if_neg hnr, if_neg hng, if_pos hfull]

/-- Post-activation handler state for a record like `sampleRecord` with user
limit `m`, freshly activated on day 0. -/
def freshState (m : Nat) : WaitState :=
  { w := { sampleRecord with max_users := m, given_users := [], last_triggered := some 0 }
    queue := []
    roles := []
    lockAttempts := 0
    grantAttempts := []
    dms := []
    announcements := [] }

/-! ## C6 — bursts below the limit -/

/-- **C6.**  For a burst of buffered arrivals whose count stays strictly
below `maxUsers` (processed from an empty buffer), no closure occurs: the
channel is never locked, no grant is attempted, nothing is announced, and
the record — `givenUsers` included — is unchanged; the arrivals merely sit
in the buffer. -/
theorem below_limit_no_closure (g : Nat → Bool) (env : MsgEnv) (today : Nat)
    (st : WaitState) (events : List (Nat × Nat))
    (hact : st.w.is_active = true) (htrig : st.w.last_triggered = some today)
    (hrole : env.roleExists = true)
    (hroles : ∀ p ∈ events, p.1 ∉ st.roles)
    (hgiven : ∀ p ∈ events, p.1 ∉ st.w.given_users)
    (hq : st.queue = [])
    (hlen : events.length < st.w.max_users) :
    processMessages g env today st events = { st with queue := events } := by
  have h := processMessages_buffer g env today events st hact htrig hrole hroles hgiven
    (by rw [hq]; simpa using hlen)
  rw [h, hq]
  simp

/-- Witness for `below_limit_no_closure`: two arrivals against a limit of
three only accumulate. -/
theorem below_limit_no_closure_witness :
    processMessages (fun _ => true) ⟨true⟩ 0 (freshState 3) [(1, 100), (2, 101)] =
      { freshState 3 with queue := [(1, 100), (2, 101)] } := by
  exact below_limit_no_closure (fun _ => true) ⟨true⟩ 0 (freshState 3) [(1, 100), (2, 101)]
    rfl rfl rfl (by decide) (by decide) rfl (by decide)

/-! ## Closure helper lemmas -/

/-- When the whole buffer fits under the limit, the code's loser list is
empty (every sorted entry's author occurs among the winners). -/
theorem closureLosers_nil_of_le (q : List (Nat × Nat)) (m : Nat) (h : q.length ≤ m) :
    closureLosers q m = [] := by
  unfold closureLosers closureWinners
  rw [List.take_of_length_le (by rw [length_sortByTs]; exact h)]
  rw [List.filter_eq_nil_iff]
  intro a ha
  simp only [Bool.not_eq_true', Bool.not_eq_false]
  exact List.elem_eq_true_of_mem ha

/-- The recorded winners (`winners.filter g`) form a sublist of the sorted
authors, hence inherit `Nodup` from distinct buffer authors, and each of
them occurs among the buffer's authors. -/
theorem granted_nodup_subset (g : Nat → Bool) (q : List (Nat × Nat)) (m : Nat)
    (h : (q.map Prod.fst).Nodup) :
    ((closureWinners q m).filter g).Nodup ∧
    ∀ u ∈ (closureWinners q m).filter g, u ∈ q.map Prod.fst := by
  have hsub : List.Sublist ((closureWinners q m).filter g) ((sortByTs q).map Prod.fst) :=
    (List.filter_sublist _).trans ((List.take_sublist m (sortByTs q)).map Prod.fst)
  have hperm : ((sortByTs q).map Prod.fst).Perm (q.map Prod.fst) :=
    (sortByTs_perm q).map _
  refine ⟨hsub.nodup (hperm.nodup_iff.mpr h), ?_⟩
  intro u hu
  exact hperm.mem_iff.mp (hsub.subset hu)

/-! ## C3 — a burst of exactly `maxUsers` arrivals -/

/-- **C3.**  Processing, from a freshly activated state (empty buffer, empty
`givenUsers`), a burst of exactly `maxUsers ≥ 1` buffered arrivals with
pairwise-distinct timestamps whose grants all succeed: no closure happens
before the last arrival, the last arrival triggers exactly one channel lock,
all `n` buffered participants are announced as winners with zero losers, the
buffer is cleared, and `givenUsers` ends as the sorted participant list — a
permutation of all `n` arrivals' participants, so it grows by exactly `n`. -/
theorem full_burst_all_winners (g : Nat → Bool) (env : MsgEnv) (today : Nat)
    (st : WaitState) (events : List (Nat × Nat))
    (hact : st.w.is_active = true) (htrig : st.w.last_triggered = some today)
    (hrole : env.roleExists = true)
    (hroles : ∀ p ∈ events, p.1 ∉ st.roles)
    (hgiven : st.w.given_users = [])
    (hq : st.queue = [])
    (hn : events.length = st.w.max_users)
    (hpos : 1 ≤ events.length)
    (hts : (events.map Prod.snd).Nodup)
    (hgrant : ∀ p ∈ events, g p.1 = true) :
    (processMessages g env today st events).w.given_users =
      (sortByTs events).map Prod.fst ∧
    ((sortByTs events).map Prod.fst).Perm (events.map Prod.fst) ∧
    (processMessages g env today st events).w.given_users.length = events.length ∧
    (processMessages g env today st events).queue = [] ∧
    (processMessages g env today st events).lockAttempts = st.lockAttempts + 1 ∧
    (processMessages g env today st events.dropLast).lockAttempts = st.lockAttempts ∧
    (processMessages g env today st events).announcements =
      st.announcements ++ [((sortByTs events).map Prod.fst, [])] := by
  rcases List.eq_nil_or_concat events with rfl | ⟨es, e, rfl⟩
  · simp at hpos
  · simp only [List.concat_eq_append] at hroles hn hpos hts hgrant ⊢
    -- phase 1: the first n-1 arrivals only accumulate
    have hes : processMessages g env today st es = { st with queue := es } := by
      have h := processMessages_buffer g env today es st hact htrig hrole
        (fun p hp => hroles p (List.mem_append_left _ hp))
        (fun p hp => hgiven ▸ (List.not_mem_nil p.1))
        (by rw [hq]; simp at hn ⊢; omega)
      rw [h, hq]
      simp
    -- phase 2: the final arrival closes
    have hclose : processMessages g env today st (es ++ [e]) =
        runClosure g { st with queue := es ++ [(e.1, e.2)] } := by
      rw [processMessages_append, hes]
      simp only [processMessages]
      rw [processMessage_closes g env today { st with queue := es } e.1 e.2 hact htrig hrole
        (hroles e (List.mem_append_right _ (List.mem_cons_self e [])))
        (hgiven ▸ (List.not_mem_nil e.1))
        (by simp at hn ⊢; omega)]
    have heq : es ++ [(e.1, e.2)] = es ++ [e] := by simp
    rw [heq] at hclose
    -- the whole buffer fits: everyone wins
    have hwin : closureWinners (es ++ [e]) st.w.max_users =
        (sortByTs (es ++ [e])).map Prod.fst := by
      unfold closureWinners
      rw [List.take_of_length_le (by rw [length_sortByTs]; omega)]
    have hlose : closureLosers (es ++ [e]) st.w.max_users = [] :=
      closureLosers_nil_of_le _ _ (by omega)
    have hfil : (closureWinners (es ++ [e]) st.w.max_users).filter g =
        closureWinners (es ++ [e]) st.w.max_users := by
      rw [List.filter_eq_self]
      intro u hu
      rw [hwin] at hu
      obtain ⟨p, hp, rfl⟩ := List.mem_map.mp hu
      exact hgrant p ((sortByTs_perm _).mem_iff.mp hp)
    have hperm : ((sortByTs (es ++ [e])).map Prod.fst).Perm ((es ++ [e]).map Prod.fst) :=
      (sortByTs_perm _).map _
    have hfil' : List.filter g (List.map Prod.fst (sortByTs (es ++ [e]))) =
        List.map Prod.fst (sortByTs (es ++ [e])) := by
      rw [List.filter_eq_self]
      intro u hu
      obtain ⟨p, hp, rfl⟩ := List.mem_map.mp hu
      exact hgrant p ((sortByTs_perm _).mem_iff.mp hp)
    refine ⟨?_, hperm, ?_, ?_, ?_, ?_, ?_⟩
    · rw [hclose]
      simp only [runClosure, hwin, hfil', hgiven]
      simp
    · rw [hclose]
      simp only [runClosure, hwin, hfil', hgiven]
      simp [length_sortByTs]
    · rw [hclose]; rfl
    · rw [hclose]; rfl
    · rw [List.dropLast_concat, hes]
    · rw [hclose]
      simp only [runClosure, hwin, hlose]

/-- Witness for `full_burst_all_winners`: limit 2, arrivals `1` then `2`. -/
theorem full_burst_all_winners_witness :
    (processMessages (fun _ => true) ⟨true⟩ 0 (freshState 2) [(1, 100), (2, 101)]).w.given_users =
      (sortByTs [(1, 100), (2, 101)]).map Prod.fst ∧
    (processMessages (fun _ => true) ⟨true⟩ 0 (freshState 2) [(1, 100), (2, 101)]).lockAttempts =
      (freshState 2).lockAttempts + 1 := by
  have h := full_burst_all_winners (fun _ => true) ⟨true⟩ 0 (freshState 2) [(1, 100), (2, 101)]
    rfl rfl rfl (by decide) rfl rfl rfl (by decide) (by decide) (by decide)
  exact ⟨h.1, h.2.2.2.2.1⟩

/-! ## C7 — per-winner grant isolation at closure -/

/-- **C7.**  At a closure, a grant is attempted for *every* winner in order
(a failure never blocks the remaining winners), and a winner's id is
appended to `givenUsers` exactly when its grant call reports success:
the newly recorded ids are precisely `winners.filter g`, and membership in
them is equivalent to being a winner whose grant succeeded. -/
theorem closure_grants_isolated (g : Nat → Bool) (env : MsgEnv)
    (today : Nat) (st : WaitState) (a ts : Nat)
    (hact : st.w.is_active = true) (htrig : st.w.last_triggered = some today)
    (hrole : env.roleExists = true) (hnr : a ∉ st.roles) (hng : a ∉ st.w.given_users)
    (hfull : st.w.max_users ≤ (st.queue ++ [(a, ts)]).length) :
    (processMessage g env today st a ts).grantAttempts =
      st.grantAttempts ++ closureWinners (st.queue ++ [(a, ts)]) st.w.max_users ∧
    (processMessage g env today st a ts).w.given_users =
      st.w.given_users ++
        (closureWinners (st.queue ++ [(a, ts)]) st.w.max_users).filter g ∧
    (∀ u, u ∈ (closureWinners (st.queue ++ [(a, ts)]) st.w.max_users).filter g ↔
      (u ∈ closureWinners (st.queue ++ [(a, ts)]) st.w.max_users ∧ g u = true)) := by
  rw [processMessage_closes g env today st a ts hact htrig hrole hnr hng hfull]
  refine ⟨rfl, rfl, ?_⟩
  intro u
  simp [List.mem_filter]

/-- Witness for `closure_grants_isolated`: the grant for participant `1`
fails, the grant for participant `2` succeeds; both are attempted, only `2`
is recorded. -/
theorem closure_grants_isolated_witness :
    (processMessage (fun u => !(u == 1)) ⟨true⟩ 0 { freshState 2 with queue := [(1, 100)] }
        2 101).grantAttempts =
      ({ freshState 2 with queue := [(1, 100)] } : WaitState).grantAttempts ++
        closureWinners ([(1, 100)] ++ [(2, 101)]) 2 ∧
    (processMessage (fun u => !(u == 1)) ⟨true⟩ 0 { freshState 2 with queue := [(1, 100)] }
        2 101).w.given_users =
      ({ freshState 2 with queue := [(1, 100)] } : WaitState).w.given_users ++
        (closureWinners ([(1, 100)] ++ [(2, 101)]) 2).filter (fun u => !(u == 1)) := by
  have h := closure_grants_isolated (fun u => !(u == 1)) ⟨true⟩ 0
    { freshState 2 with queue := [(1, 100)] } 2 101 rfl rfl rfl (by decide) (by decide)
    (by decide)
  exact ⟨h.1, h.2.1⟩

/-! ## C1 — at-most-once recording per activation cycle -/

/-- Appending a fresh element on the right of the second block preserves
`Nodup` of the concatenation. -/
theorem nodup_append_snoc {l₁ l₂ : List Nat} {a : Nat}
    (h : (l₁ ++ l₂).Nodup) (h1 : a ∉ l₁) (h2 : a ∉ l₂) :
    (l₁ ++ (l₂ ++ [a])).Nodup := by
  rw [← List.append_assoc, List.nodup_append]
  refine ⟨h, List.nodup_singleton a, ?_⟩
  intro x hx hxa
  rw [List.mem_singleton] at hxa
  subst hxa
  rcases List.mem_append.mp hx with h' | h'
  · exact h1 h'
  · exact h2 h'

/-- Every `on_message` invocation either leaves the state unchanged, only
sends a DM, appends the arrival to the queue, or appends and closes. -/
theorem processMessage_cases (g : Nat → Bool) (env : MsgEnv) (today : Nat)
    (st : WaitState) (a ts : Nat) :
    processMessage g env today st a ts = st ∨
    processMessage g env today st a ts = { st with dms := st.dms ++ [a] } ∨
    (a ∉ st.roles ∧ a ∉ st.w.given_users ∧
      processMessage g env today st a ts = { st with queue := st.queue ++ [(a, ts)] }) ∨
    (a ∉ st.roles ∧ a ∉ st.w.given_users ∧
      processMessage g env today st a ts =
        runClosure g { st with queue := st.queue ++ [(a, ts)] }) := by
  unfold processMessage
  repeat' split
  all_goals first
    | exact Or.inl rfl
    | exact Or.inr (Or.inl rfl)
    | exact Or.inr (Or.inr (Or.inr ⟨by assumption, by assumption, rfl⟩))
    | exact Or.inr (Or.inr (Or.inl ⟨by assumption, by assumption, rfl⟩))

/-- The recorded-or-buffered participants stay duplicate-free while the
remaining arrivals are fresh: the central invariant behind the at-most-once
property. -/
theorem processMessages_nodup_invariant (g : Nat → Bool) (env : MsgEnv) (today : Nat) :
    ∀ (events : List (Nat × Nat)) (st : WaitState),
    (st.w.given_users ++ st.queue.map Prod.fst).Nodup →
    (events.map Prod.fst).Nodup →
    (∀ b ∈ events, b.1 ∉ st.w.given_users ∧ b.1 ∉ st.queue.map Prod.fst) →
    ((processMessages g env today st events).w.given_users ++
      (processMessages g env today st events).queue.map Prod.fst).Nodup
  | [], st, hnd, _, _ => by simpa [processMessages] using hnd
  | e :: es, st, hnd, hev, hdis => by
    simp only [processMessages]
    have hevt : (es.map Prod.fst).Nodup := by
      simp only [List.map_cons, List.nodup_cons] at hev
      exact hev.2
    have hne : e.1 ∉ es.map Prod.fst := by
      simp only [List.map_cons, List.nodup_cons] at hev
      exact hev.1
    have hdis' : ∀ b ∈ es, b.1 ∉ st.w.given_users ∧ b.1 ∉ st.queue.map Prod.fst :=
      fun b hb => hdis b (List.mem_cons_of_mem e hb)
    have hde := hdis e (List.mem_cons_self e es)
    rcases processMessage_cases g env today st e.1 e.2 with
      hcase | hcase | ⟨hr, hg, hcase⟩ | ⟨hr, hg, hcase⟩
    · rw [hcase]
      exact processMessages_nodup_invariant g env today es st hnd hevt hdis'
    · rw [hcase]
      exact processMessages_nodup_invariant g env today es _ hnd hevt hdis'
    · rw [hcase]
      apply processMessages_nodup_invariant g env today es
      · show (st.w.given_users ++ (st.queue ++ [(e.1, e.2)]).map Prod.fst).Nodup
        simp only [List.map_append, List.map_cons, List.map_nil]
        exact nodup_append_snoc hnd hde.1 hde.2
      · exact hevt
      · intro b hb
        refine ⟨(hdis' b hb).1, ?_⟩
        show b.1 ∉ (st.queue ++ [(e.1, e.2)]).map Prod.fst
        simp only [List.map_append, List.map_cons, List.map_nil]
        intro hmem
        rcases List.mem_append.mp hmem with hm | hm
        · exact (hdis' b hb).2 hm
        · rw [List.mem_singleton] at hm
          exact hne (hm ▸ List.mem_map_of_mem Prod.fst hb)
    · -- the closing step
      have hrc : runClosure g { st with queue := st.queue ++ [(e.1, e.2)] } =
          { w := { st.w with given_users := st.w.given_users ++
                (closureWinners (st.queue ++ [(e.1, e.2)]) st.w.max_users).filter g }
            queue := []
            roles := st.roles ++
              (closureWinners (st.queue ++ [(e.1, e.2)]) st.w.max_users).filter g
            lockAttempts := st.lockAttempts + 1
            grantAttempts := st.grantAttempts ++
              closureWinners (st.queue ++ [(e.1, e.2)]) st.w.max_users
            dms := st.dms
            announcements := st.announcements ++
              [(closureWinners (st.queue ++ [(e.1, e.2)]) st.w.max_users,
                closureLosers (st.queue ++ [(e.1, e.2)]) st.w.max_users)] } := rfl
      rw [hcase, hrc]
      have hqnd : ((st.queue ++ [(e.1, e.2)]).map Prod.fst).Nodup := by
        simp only [List.map_append, List.map_cons, List.map_nil]
        rw [List.nodup_append]
        refine ⟨(List.nodup_append.mp hnd).2.1, List.nodup_singleton _, ?_⟩
        intro x hx hxa
        rw [List.mem_singleton] at hxa
        subst hxa
        exact hde.2 hx
      obtain ⟨hgndup, hgsub⟩ :=
        granted_nodup_subset g (st.queue ++ [(e.1, e.2)]) st.w.max_users hqnd
      apply processMessages_nodup_invariant g env today es
      · show ((st.w.given_users ++
            (closureWinners (st.queue ++ [(e.1, e.2)]) st.w.max_users).filter g) ++
            ([] : List (Nat × Nat)).map Prod.fst).Nodup
        simp only [List.map_nil, List.append_nil]
        rw [List.nodup_append]
        refine ⟨(List.nodup_append.mp hnd).1, hgndup, ?_⟩
        intro x hx hxg
        have hxq := hgsub x hxg
        simp only [List.map_append, List.map_cons, List.map_nil] at hxq
        rcases List.mem_append.mp hxq with hm | hm
        · exact (List.nodup_append.mp hnd).2.2 hx hm
        · rw [List.mem_singleton] at hm
          subst hm
          exact hg hx
      · exact hevt
      · intro b hb
        constructor
        · show b.1 ∉ st.w.given_users ++
            (closureWinners (st.queue ++ [(e.1, e.2)]) st.w.max_users).filter g
          intro hmem
          rcases List.mem_append.mp hmem with hm | hm
          · exact (hdis' b hb).1 hm
          · have hxq := hgsub _ hm
            simp only [List.map_append, List.map_cons, List.map_nil] at hxq
            rcases List.mem_append.mp hxq with hm2 | hm2
            · exact (hdis' b hb).2 hm2
            · rw [List.mem_singleton] at hm2
              exact hne (hm2 ▸ List.mem_map_of_mem Prod.fst hb)
        · show b.1 ∉ ([] : List (Nat × Nat)).map Prod.fst
          simp

/-- **C1, counterexample.**  A participant who sends two messages within one
burst is buffered twice: with `maxUsers = 2`, participant `1` messaging at
timestamps 100 and 101 fills the buffer alone, wins both slots, and (both
`add_roles` calls succeeding) is recorded twice in `givenUsers` of the same
activation cycle. -/
theorem duplicate_participant_recorded_twice :
    (processMessages (fun _ => true) ⟨true⟩ 0 (freshState 2)
        [(1, 100), (1, 101)]).w.given_users = [1, 1] ∧
    ¬ (processMessages (fun _ => true) ⟨true⟩ 0 (freshState 2)
        [(1, 100), (1, 101)]).w.given_users.Nodup := by
  decide

/-- **C1, amended.**  The handler never re-admits a participant that is
already recorded in `givenUsers` (or already holds the role); consequently,
when the arrival events of one activation cycle carry pairwise-distinct
participant ids, no id ever appears twice in `givenUsers`.  A participant
who sends several messages inside a single burst, however, occupies several
buffer slots and can be granted and recorded more than once (see the
counterexample). -/
theorem given_users_nodup_of_distinct_participants (g : Nat → Bool) (env : MsgEnv)
    (today : Nat) (st : WaitState) (events : List (Nat × Nat))
    (hdistinct : (events.map Prod.fst).Nodup)
    (hgiven : st.w.given_users = []) (hq : st.queue = []) :
    (processMessages g env today st events).w.given_users.Nodup := by
  have h := processMessages_nodup_invariant g env today events st
    (by simp [hgiven, hq]) hdistinct (by simp [hgiven, hq])
  exact (List.nodup_append.mp h).1

/-- Witness for `given_users_nodup_of_distinct_participants`: three distinct
participants, closure after the second, third buffers into the next burst;
no id is recorded twice. -/
theorem given_users_nodup_witness :
    (processMessages (fun _ => true) ⟨true⟩ 0 (freshState 2)
        [(1, 100), (2, 101), (3, 102)]).w.given_users.Nodup := by
  exact given_users_nodup_of_distinct_participants (fun _ => true) ⟨true⟩ 0 (freshState 2)
    [(1, 100), (2, 101), (3, 102)] (by decide) rfl rfl
